import Mathlib

/-!
Shallow embedding of the `counter` log-aggregation pipeline.

`src/src/main.rs` provides the orchestrator (`Runner`), the CLI entry point
(`main`, exit codes, benchmark flag) and the shutdown precaution
(`Runner::shutdown`).  The worker (`file_handling::FileAggregator`), the
controller (`aggregation_control::AggregationController`) and the aggregate
data types live in the `counter` library crate, which is not part of the
sources here; those parts are modelled from the specification (sections 3,
4.1 and 4.2) and are marked `Modelled from the spec:` in their doc comments.

Collaborators (the line parser, the file system, wall-clock time, the number
of CPUs, the file-listing result and the schedule of message arrivals) are
parameters of the model.
-/

/-- Calendar day: the event time truncated to a date (no time of day). -/
structure Day where
  year : Nat
  month : Nat
  dayOfMonth : Nat
deriving DecidableEq

/-- An event time: a calendar day plus the time-of-day component that
`AggregateKey` truncates away. -/
structure Timestamp where
  day : Day
  secondsOfDay : Nat
deriving DecidableEq

/-- Modelled from the spec: `LogRecord` {system identifier, event time,
client address}, produced per line by the external record parser. -/
structure LogRecord where
  system_name : String
  timestamp : Timestamp
  client_address : String
deriving DecidableEq

/-- Modelled from the spec: `AggregateKey` {system identifier, day, client
address}; field names follow the accesses in `main.rs`
(`aggregate.system_name`, `aggregate.day`, `aggregate.client_address`). -/
structure AggregateKey where
  system_name : String
  day : Day
  client_address : String
deriving DecidableEq

/-- The counts map, represented as an association list from `AggregateKey`
to occurrence count; an entry is created on a key's first occurrence. -/
abbrev Counts := List (AggregateKey × Nat)

/-- Add `n` to the entry for key `k`, or create the entry `(k, n)` if `k`
is absent (spec section 4.2: "add the count to the existing entry for that
key or create it with that count if absent"). -/
def addCount : Counts → AggregateKey → Nat → Counts
  | [], k, n => [(k, n)]
  | (k₀, m) :: rest, k, n =>
      if k₀ = k then (k₀, m + n) :: rest else (k₀, m) :: addCount rest k n

/-- The count stored for key `k` (0 when absent). -/
def lookupCount : Counts → AggregateKey → Nat
  | [], _ => 0
  | (k₀, m) :: rest, k => if k₀ = k then m else lookupCount rest k

/-- The sum of all counts recorded under key `k` (coincides with
`lookupCount` on maps whose keys are unique, as built by `addCount`). -/
def keySum (cs : Counts) (k : AggregateKey) : Nat :=
  (cs.map (fun kn => if kn.1 = k then kn.2 else 0)).sum

/-- Modelled from the spec: the per-file partial aggregate built by one
Worker for one file {record count, counts map}. -/
structure PerFileAggregate where
  numRecords : Nat
  counts : Counts
deriving DecidableEq

/-- The global aggregate (`counter::FileAggregation` in `main.rs`):
{total record count, counts map}; field names follow
`final_agg.num_raw_records` and `final_agg.aggregation` in `main.rs`. -/
structure FileAggregation where
  num_raw_records : Nat
  aggregation : Counts
deriving DecidableEq

/-- The external record parser collaborator: one raw line to a structured
record, or a parse failure (`None`). -/
abbrev Parser := String → Option LogRecord

/-- A source file as the Worker observes it: the lines successfully read
before any read failure, and whether an `IoError` then occurred (an
immediate open failure is `lines = []` with `ioError = true`). -/
structure SourceFile where
  lines : List String
  ioError : Bool

/-- The file-system collaborator: file path to observed content. -/
abbrev FileSystem := String → SourceFile

/-- Modelled from the spec: the grouping key of a record — the day is the
date portion of the event time. -/
def keyOf (r : LogRecord) : AggregateKey :=
  { system_name := r.system_name, day := r.timestamp.day,
    client_address := r.client_address }

/-- Modelled from the spec (section 4.1, steps 2-3): process one line. A
line that fails to parse is skipped and does not increment the record
count; a parsed record increments its key's count and the record count. -/
def lineStep (parse : Parser) (pa : PerFileAggregate) (line : String) :
    PerFileAggregate :=
  match parse line with
  | none => pa
  | some r =>
      { numRecords := pa.numRecords + 1,
        counts := addCount pa.counts (keyOf r) 1 }

/-- Modelled from the spec: fold `lineStep` over the lines of a file,
starting from the empty per-file aggregate. -/
def processLines (parse : Parser) (ls : List String) : PerFileAggregate :=
  ls.foldl (lineStep parse) { numRecords := 0, counts := [] }

/-- Modelled from the spec (section 4.1): the per-file aggregate a Worker
produces for a dispatched file — built from exactly the lines read before
any `IoError`; the error itself only gets logged and marked, it does not
change any count. -/
def processFile (parse : Parser) (fs : FileSystem) (path : String) :
    PerFileAggregate :=
  processLines parse (fs path).lines

/-- The number of lines of `ls` that parse successfully. -/
def parsedCount (parse : Parser) (ls : List String) : Nat :=
  ls.countP (fun line => (parse line).isSome)

/-- The number of successfully parsed lines of `ls` whose record groups
under key `k`. -/
def countKeyLines (parse : Parser) (ls : List String) (k : AggregateKey) :
    Nat :=
  (ls.filterMap parse).countP (fun r => decide (keyOf r = k))

/-- Fold a counts map into an accumulator with `addCount`. -/
def mergeCounts (acc : Counts) (cs : Counts) : Counts :=
  cs.foldl (fun a kn => addCount a kn.1 kn.2) acc

/-- Modelled from the spec (section 4.2, step 2): merge one per-file
aggregate into the global aggregate — add the record counts, and add each
per-key count into the global counts map. -/
def mergeInto (g : FileAggregation) (p : PerFileAggregate) :
    FileAggregation :=
  { num_raw_records := g.num_raw_records + p.numRecords,
    aggregation := mergeCounts g.aggregation p.counts }

/-- The empty global aggregate the Controller starts from. -/
def emptyAggregation : FileAggregation :=
  { num_raw_records := 0, aggregation := [] }

/-- Merge a list of per-file aggregates, in order, into the empty global
aggregate. -/
def mergeAll (ps : List PerFileAggregate) : FileAggregation :=
  ps.foldl mergeInto emptyAggregation

theorem lookupCount_addCount (l : Counts) (k : AggregateKey) (n : Nat)
    (k' : AggregateKey) :
    lookupCount (addCount l k n) k'
      = lookupCount l k' + (if k = k' then n else 0) := by
  induction l with
  | nil =>
      by_cases h : k = k' <;> simp [addCount, lookupCount, h]
  | cons kn rest ih =>
      obtain ⟨k₀, m⟩ := kn
      by_cases h₀ : k₀ = k
      · subst h₀
        by_cases h' : k₀ = k' <;> simp [addCount, lookupCount, h'] <;> omega
      · by_cases h' : k₀ = k'
        · subst h'
          have : ¬ k = k₀ := fun h => h₀ h.symm
          simp [addCount, lookupCount, h₀, this]
        · simp [addCount, lookupCount, h₀, h', ih]

theorem keySum_nil (k : AggregateKey) : keySum [] k = 0 := rfl

theorem keySum_cons (k₀ : AggregateKey) (m : Nat) (rest : Counts)
    (k : AggregateKey) :
    keySum ((k₀, m) :: rest) k
      = (if k₀ = k then m else 0) + keySum rest k := by
  simp [keySum]

theorem keySum_addCount (l : Counts) (k : AggregateKey) (n : Nat)
    (k' : AggregateKey) :
    keySum (addCount l k n) k'
      = keySum l k' + (if k = k' then n else 0) := by
  induction l with
  | nil =>
      by_cases h : k = k' <;> simp [addCount, keySum, h]
  | cons kn rest ih =>
      obtain ⟨k₀, m⟩ := kn
      by_cases h₀ : k₀ = k
      · subst h₀
        by_cases h' : k₀ = k' <;>
          simp [addCount, keySum_cons, h'] <;> omega
      · rw [addCount, if_neg h₀, keySum_cons, keySum_cons, ih]
        omega

theorem lookupCount_mergeCounts (cs : Counts) (acc : Counts)
    (k : AggregateKey) :
    lookupCount (mergeCounts acc cs) k = lookupCount acc k + keySum cs k := by
  induction cs generalizing acc with
  | nil => simp [mergeCounts, keySum]
  | cons kn rest ih =>
      obtain ⟨k₀, n₀⟩ := kn
      have : mergeCounts acc ((k₀, n₀) :: rest)
          = mergeCounts (addCount acc k₀ n₀) rest := rfl
      rw [this, ih, lookupCount_addCount, keySum_cons]
      by_cases h : k₀ = k <;> simp [h] <;> omega

theorem mergeInto_num (g : FileAggregation) (p : PerFileAggregate) :
    (mergeInto g p).num_raw_records = g.num_raw_records + p.numRecords := rfl

theorem mergeInto_lookup (g : FileAggregation) (p : PerFileAggregate)
    (k : AggregateKey) :
    lookupCount (mergeInto g p).aggregation k
      = lookupCount g.aggregation k + keySum p.counts k :=
  lookupCount_mergeCounts p.counts g.aggregation k

theorem foldl_mergeInto_num (ps : List PerFileAggregate)
    (g : FileAggregation) :
    (ps.foldl mergeInto g).num_raw_records
      = g.num_raw_records + (ps.map PerFileAggregate.numRecords).sum := by
  induction ps generalizing g with
  | nil => simp
  | cons p rest ih =>
      simp [ih, mergeInto_num]
      omega

theorem foldl_mergeInto_lookup (ps : List PerFileAggregate)
    (g : FileAggregation) (k : AggregateKey) :
    lookupCount (ps.foldl mergeInto g).aggregation k
      = lookupCount g.aggregation k
        + (ps.map (fun p => keySum p.counts k)).sum := by
  induction ps generalizing g with
  | nil => simp
  | cons p rest ih =>
      simp [ih, mergeInto_lookup]
      omega

theorem foldl_lineStep_numRecords (parse : Parser) (ls : List String)
    (pa : PerFileAggregate) :
    (ls.foldl (lineStep parse) pa).numRecords
      = pa.numRecords + parsedCount parse ls := by
  induction ls generalizing pa with
  | nil => simp [parsedCount]
  | cons l rest ih =>
      cases h : parse l with
      | none =>
          simp [lineStep, h, ih, parsedCount, List.countP_cons]
      | some r =>
          simp [lineStep, h, ih, parsedCount, List.countP_cons]
          omega

theorem foldl_lineStep_lookupCount (parse : Parser) (ls : List String)
    (pa : PerFileAggregate) (k : AggregateKey) :
    lookupCount (ls.foldl (lineStep parse) pa).counts k
      = lookupCount pa.counts k + countKeyLines parse ls k := by
  induction ls generalizing pa with
  | nil => simp [countKeyLines]
  | cons l rest ih =>
      cases h : parse l with
      | none =>
          simp [lineStep, h, ih, countKeyLines, List.filterMap_cons]
      | some r =>
          simp only [List.foldl_cons, lineStep, h, ih, countKeyLines,
            List.filterMap_cons, List.countP_cons, lookupCount_addCount]
          by_cases hk : keyOf r = k <;> simp [hk] <;> omega

theorem foldl_lineStep_keySum (parse : Parser) (ls : List String)
    (pa : PerFileAggregate) (k : AggregateKey) :
    keySum (ls.foldl (lineStep parse) pa).counts k
      = keySum pa.counts k + countKeyLines parse ls k := by
  induction ls generalizing pa with
  | nil => simp [countKeyLines]
  | cons l rest ih =>
      cases h : parse l with
      | none =>
          simp [lineStep, h, ih, countKeyLines, List.filterMap_cons]
      | some r =>
          simp only [List.foldl_cons, lineStep, h, ih, countKeyLines,
            List.filterMap_cons, List.countP_cons, keySum_addCount]
          by_cases hk : keyOf r = k <;> simp [hk] <;> omega

theorem processFile_numRecords (parse : Parser) (fs : FileSystem)
    (path : String) :
    (processFile parse fs path).numRecords
      = parsedCount parse (fs path).lines := by
  simpa using foldl_lineStep_numRecords parse (fs path).lines
    { numRecords := 0, counts := [] }

theorem processFile_lookupCount (parse : Parser) (fs : FileSystem)
    (path : String) (k : AggregateKey) :
    lookupCount (processFile parse fs path).counts k
      = countKeyLines parse (fs path).lines k := by
  simpa [lookupCount] using foldl_lineStep_lookupCount parse
    (fs path).lines { numRecords := 0, counts := [] } k

theorem processFile_keySum (parse : Parser) (fs : FileSystem)
    (path : String) (k : AggregateKey) :
    keySum (processFile parse fs path).counts k
      = countKeyLines parse (fs path).lines k := by
  simpa [keySum] using foldl_lineStep_keySum parse
    (fs path).lines { numRecords := 0, counts := [] } k

/-- Modelled from the spec: the tagged messages a Worker receives on its
private inbound channel; the `Done` variant appears in `main.rs` as
`counter::file_handling::FileHandlingMessages::Done`. -/
inductive FileHandlingMessages
  | processFile (path : String)
  | done
deriving DecidableEq

/-- Modelled from the spec (section 4.2): the Controller's state —
`pending` files not yet dispatched, `inFlight` dispatched-but-unfinished
(worker identifier, file) pairs, and the running `global` aggregate.
`dispatched` and `merged` record the dispatch and merge events so that
exactly-once accounting can be stated. -/
structure CtrlState where
  pending : List String
  inFlight : List (Nat × String)
  global : FileAggregation
  dispatched : List String
  merged : List String

/-- Modelled from the spec (section 4.2, step 1, dispatch phase): Workers
`0 .. n-1` each receive one file from the front of the list while files
remain; the rest stay pending.  If the file list is shorter than `n`, the
extra Workers receive nothing and idle. -/
def initialDispatch (n : Nat) (files : List String) : CtrlState :=
  { pending := files.drop n
    inFlight := (files.take n).enum
    global := emptyAggregation
    dispatched := files.take n
    merged := [] }

/-- Modelled from the spec (section 4.2, step 2, collection phase): one
iteration of the Controller's loop.  The schedule `choice` selects which
in-flight file's partial result arrives next (arrival order is beyond the
Controller's control); its per-file aggregate is merged into `global`, and
if files are pending, the next one is dispatched to the Worker that just
reported completion. -/
def ctrlStep (parse : Parser) (fs : FileSystem) (st : CtrlState)
    (choice : Nat) : CtrlState :=
  match st.inFlight with
  | [] => st
  | e :: es =>
    let flight := e :: es
    let i := choice % flight.length
    let entry := flight.getD i (0, "")
    let g := mergeInto st.global (processFile parse fs entry.2)
    let rest := flight.eraseIdx i
    match st.pending with
    | [] =>
        { pending := [], inFlight := rest, global := g,
          dispatched := st.dispatched, merged := st.merged ++ [entry.2] }
    | p :: ps =>
        { pending := ps, inFlight := (entry.1, p) :: rest, global := g,
          dispatched := st.dispatched ++ [p],
          merged := st.merged ++ [entry.2] }

/-- Modelled from the spec (section 4.2): the Controller's collection loop,
driven by the arrival schedule, running while work is in flight.  `fuel`
bounds the number of iterations; one merge happens per iteration, so
`files.length` iterations complete any run. -/
def ctrlRun (parse : Parser) (fs : FileSystem) :
    Nat → List Nat → CtrlState → CtrlState
  | 0, _, st => st
  | fuel + 1, sched, st =>
    match st.inFlight with
    | [] => st
    | _ :: _ =>
        ctrlRun parse fs fuel sched.tail (ctrlStep parse fs st (sched.headD 0))

/-- The files whose partial result has not yet been merged: pending plus
in flight. -/
def remaining (st : CtrlState) : List String :=
  st.pending ++ st.inFlight.map Prod.snd

/-- The Controller never leaves pending files with nothing in flight
(workers only idle when the pending queue is empty). -/
def goodState (st : CtrlState) : Prop :=
  st.pending = [] ∨ st.inFlight ≠ []

theorem enumFrom_map_snd (n : Nat) (l : List α) :
    (List.enumFrom n l).map Prod.snd = l := by
  induction l generalizing n with
  | nil => rfl
  | cons a t ih => simp [List.enumFrom, ih]

theorem enum_map_snd_eq (l : List α) : l.enum.map Prod.snd = l :=
  enumFrom_map_snd 0 l

theorem getD_cons_eraseIdx_perm (l : List α) (i : Nat) (h : i < l.length)
    (d : α) : List.Perm (l.getD i d :: l.eraseIdx i) l := by
  induction l generalizing i with
  | nil => simp at h
  | cons a t ih =>
    cases i with
    | zero => simp [List.eraseIdx]
    | succ j =>
      have hj : j < t.length := by simpa using h
      have h1 : (a :: t).getD (j + 1) d :: (a :: t).eraseIdx (j + 1)
          = t.getD j d :: a :: t.eraseIdx j := by
        simp [List.eraseIdx, List.getD]
      rw [h1]
      exact (List.Perm.swap a (t.getD j d) (t.eraseIdx j)).trans
        (List.Perm.cons a (ih j hj))

theorem map_eraseIdx_comm (f : α → β) (l : List α) (i : Nat) :
    (l.eraseIdx i).map f = (l.map f).eraseIdx i := by
  induction l generalizing i with
  | nil => simp
  | cons a t ih => cases i <;> simp [List.eraseIdx, ih]

theorem getD_map_comm (f : α → β) (l : List α) (i : Nat) (d : α) :
    (l.map f).getD i (f d) = f (l.getD i d) := by
  induction l generalizing i with
  | nil => simp [List.getD]
  | cons a t ih => cases i <;> simp [List.getD, ih]

theorem ctrlRun_succ_ne (parse : Parser) (fs : FileSystem) (f : Nat)
    (sched : List Nat) (st : CtrlState) (h : st.inFlight ≠ []) :
    ctrlRun parse fs (f + 1) sched st
      = ctrlRun parse fs f sched.tail (ctrlStep parse fs st (sched.headD 0)) := by
  obtain ⟨pend, flight, g, d, m⟩ := st
  cases flight with
  | nil => exact absurd rfl h
  | cons e es => rfl

theorem ctrlRun_succ_nil (parse : Parser) (fs : FileSystem) (f : Nat)
    (sched : List Nat) (st : CtrlState) (h : st.inFlight = []) :
    ctrlRun parse fs (f + 1) sched st = st := by
  obtain ⟨pend, flight, g, d, m⟩ := st
  cases flight with
  | nil => rfl
  | cons e es => simp at h

theorem remaining_eq_nil (st : CtrlState) (h : (remaining st).length = 0) :
    st.pending = [] ∧ st.inFlight = [] := by
  obtain ⟨pend, flight, g, d, m⟩ := st
  simp [remaining] at h
  obtain ⟨h1, h2⟩ := h
  exact ⟨h1, h2⟩

theorem ctrlStep_spec (parse : Parser) (fs : FileSystem) (st : CtrlState)
    (c : Nat) (hne : st.inFlight ≠ []) :
    ∃ f : String,
      goodState (ctrlStep parse fs st c) ∧
      List.Perm (remaining st) (f :: remaining (ctrlStep parse fs st c)) ∧
      (ctrlStep parse fs st c).merged = st.merged ++ [f] ∧
      (ctrlStep parse fs st c).dispatched ++ (ctrlStep parse fs st c).pending
        = st.dispatched ++ st.pending ∧
      (ctrlStep parse fs st c).global
        = mergeInto st.global (processFile parse fs f) := by
  obtain ⟨pend, flight, g, d, m⟩ := st
  cases flight with
  | nil => exact absurd rfl hne
  | cons e es =>
    have hilt : c % (e :: es).length < (e :: es).length :=
      Nat.mod_lt _ (by simp)
    have hsnd : List.Perm ((e :: es).map Prod.snd)
        (((e :: es).getD (c % (e :: es).length) (0, "")).2
          :: ((e :: es).eraseIdx (c % (e :: es).length)).map Prod.snd) := by
      rw [map_eraseIdx_comm]
      have hd : (((e :: es).map Prod.snd).getD (c % (e :: es).length) "")
          = ((e :: es).getD (c % (e :: es).length) (0, "")).2 :=
        getD_map_comm Prod.snd (e :: es) (c % (e :: es).length) (0, "")
      rw [← hd]
      exact (getD_cons_eraseIdx_perm ((e :: es).map Prod.snd)
        (c % (e :: es).length) (by simpa using hilt) "").symm
    cases pend with
    | nil =>
      refine ⟨((e :: es).getD (c % (e :: es).length) (0, "")).2,
        Or.inl rfl, ?_, rfl, rfl, rfl⟩
      simpa [remaining, ctrlStep] using hsnd
    | cons p ps =>
      refine ⟨((e :: es).getD (c % (e :: es).length) (0, "")).2,
        Or.inr (by simp [ctrlStep]), ?_, rfl, by simp [ctrlStep], rfl⟩
      have h1 : List.Perm ((p :: ps) ++ (e :: es).map Prod.snd)
          ((p :: ps) ++ (((e :: es).getD (c % (e :: es).length) (0, "")).2
            :: ((e :: es).eraseIdx (c % (e :: es).length)).map Prod.snd)) :=
        List.Perm.append_left (p :: ps) hsnd
      refine h1.trans ?_
      have h2 : List.Perm
          (ps ++ (((e :: es).getD (c % (e :: es).length) (0, "")).2
            :: ((e :: es).eraseIdx (c % (e :: es).length)).map Prod.snd))
          ((((e :: es).getD (c % (e :: es).length) (0, "")).2
            :: (ps ++ ((e :: es).eraseIdx (c % (e :: es).length)).map Prod.snd))) :=
        List.perm_middle
      have h3 := (List.Perm.cons p h2).trans
        (List.Perm.swap (((e :: es).getD (c % (e :: es).length) (0, "")).2) p
          (ps ++ ((e :: es).eraseIdx (c % (e :: es).length)).map Prod.snd))
      refine h3.trans ?_
      refine List.Perm.cons _ ?_
      have h4 : List.Perm
          (p :: (ps ++ ((e :: es).eraseIdx (c % (e :: es).length)).map Prod.snd))
          (ps ++ p :: ((e :: es).eraseIdx (c % (e :: es).length)).map Prod.snd) :=
        List.perm_middle.symm
      simpa [remaining, ctrlStep] using h4

theorem ctrlRun_spec (parse : Parser) (fs : FileSystem) (fuel : Nat) :
    ∀ (sched : List Nat) (st : CtrlState),
    goodState st → (remaining st).length ≤ fuel →
    (ctrlRun parse fs fuel sched st).pending = [] ∧
    (ctrlRun parse fs fuel sched st).inFlight = [] ∧
    List.Perm (ctrlRun parse fs fuel sched st).merged
      (st.merged ++ remaining st) ∧
    (ctrlRun parse fs fuel sched st).dispatched
      = st.dispatched ++ st.pending ∧
    (ctrlRun parse fs fuel sched st).global.num_raw_records
      = st.global.num_raw_records
        + ((remaining st).map
            (fun f => (processFile parse fs f).numRecords)).sum ∧
    ∀ k, lookupCount (ctrlRun parse fs fuel sched st).global.aggregation k
      = lookupCount st.global.aggregation k
        + ((remaining st).map
            (fun f => keySum (processFile parse fs f).counts k)).sum := by
  induction fuel with
  | zero =>
    intro sched st hg hl
    obtain ⟨hp, hf⟩ := remaining_eq_nil st (Nat.le_zero.mp hl)
    have hr : remaining st = [] := by simp [remaining, hp, hf]
    simp [ctrlRun, hr, hp, hf]
  | succ f ih =>
    intro sched st hg hl
    by_cases hfl : st.inFlight = []
    · have hp : st.pending = [] := hg.resolve_right (fun h => h hfl)
      have hr : remaining st = [] := by simp [remaining, hp, hfl]
      rw [ctrlRun_succ_nil parse fs f sched st hfl]
      simp [hr, hp, hfl]
    · rw [ctrlRun_succ_ne parse fs f sched st hfl]
      obtain ⟨f₀, hgood, hperm, hm, hd, hgl⟩ :=
        ctrlStep_spec parse fs st (sched.headD 0) hfl
      have hstep_len : (remaining (ctrlStep parse fs st (sched.headD 0))).length + 1
          = (remaining st).length := by
        have h := hperm.length_eq
        rw [List.length_cons] at h
        omega
      obtain ⟨ih1, ih2, ih3, ih4, ih5, ih6⟩ :=
        ih sched.tail (ctrlStep parse fs st (sched.headD 0)) hgood (by omega)
      refine ⟨ih1, ih2, ?_, ?_, ?_, ?_⟩
      · refine ih3.trans ?_
        rw [hm]
        have h2 : List.Perm
            (st.merged ++ (f₀ :: remaining (ctrlStep parse fs st (sched.headD 0))))
            (st.merged ++ remaining st) :=
          List.Perm.append_left st.merged hperm.symm
        simpa [List.append_assoc] using h2
      · rw [ih4, hd]
      · rw [ih5, hgl, mergeInto_num]
        have hsum : ((remaining st).map
              (fun f => (processFile parse fs f).numRecords)).sum
            = (processFile parse fs f₀).numRecords
              + ((remaining (ctrlStep parse fs st (sched.headD 0))).map
                  (fun f => (processFile parse fs f).numRecords)).sum := by
          have h := (hperm.map (fun f => (processFile parse fs f).numRecords)).sum_eq
          simpa using h
        omega
      · intro k
        rw [ih6 k, hgl, mergeInto_lookup]
        have hsum : ((remaining st).map
              (fun f => keySum (processFile parse fs f).counts k)).sum
            = keySum (processFile parse fs f₀).counts k
              + ((remaining (ctrlStep parse fs st (sched.headD 0))).map
                  (fun f => keySum (processFile parse fs f).counts k)).sum := by
          have h := (hperm.map (fun f => keySum (processFile parse fs f).counts k)).sum_eq
          simpa using h
        omega

/-- Modelled from the spec (section 4.2): the Controller's full run on a
file list — initial dispatch, then the collection loop.  One merge happens
per iteration and every file is merged exactly once, so `files.length`
iterations always complete the run. -/
def controllerFinal (parse : Parser) (fs : FileSystem) (n : Nat)
    (sched : List Nat) (files : List String) : CtrlState :=
  ctrlRun parse fs files.length sched (initialDispatch n files)

/-- Modelled from the spec: `run_aggregation(file_list) -> GlobalAggregate`,
the Controller's contract (section 4.2); `n` is the worker count and
`sched` the arrival order of the Workers' partial results. -/
def run_aggregation (parse : Parser) (fs : FileSystem) (n : Nat)
    (sched : List Nat) (files : List String) : FileAggregation :=
  (controllerFinal parse fs n sched files).global

theorem initialDispatch_remaining (n : Nat) (files : List String) :
    remaining (initialDispatch n files) = files.drop n ++ files.take n := by
  simp [remaining, initialDispatch, List.enum]

theorem initialDispatch_remaining_perm (n : Nat) (files : List String) :
    List.Perm (remaining (initialDispatch n files)) files := by
  rw [initialDispatch_remaining]
  exact List.perm_append_comm.trans
    (by rw [List.take_append_drop])

theorem initialDispatch_good (n : Nat) (files : List String) (hn : 1 ≤ n) :
    goodState (initialDispatch n files) := by
  by_cases h : files.drop n = []
  · exact Or.inl h
  · right
    have hlen : n < files.length := by
      by_contra hc
      exact h (List.drop_eq_nil_of_le (by omega))
    have htake : (files.take n).length = n := by
      rw [List.length_take]
      omega
    intro hcon
    have hcon' : (files.take n).enum = [] := hcon
    have h0 := congrArg List.length (enum_map_snd_eq (files.take n))
    rw [List.length_map, hcon', htake] at h0
    simp at h0
    omega

theorem controller_core (parse : Parser) (fs : FileSystem) (n : Nat)
    (sched : List Nat) (files : List String) (hn : 1 ≤ n) :
    List.Perm (controllerFinal parse fs n sched files).merged files ∧
    (controllerFinal parse fs n sched files).dispatched = files ∧
    (controllerFinal parse fs n sched files).pending = [] ∧
    (controllerFinal parse fs n sched files).inFlight = [] ∧
    (run_aggregation parse fs n sched files).num_raw_records
      = (files.map (fun f => (processFile parse fs f).numRecords)).sum ∧
    ∀ k, lookupCount (run_aggregation parse fs n sched files).aggregation k
      = (files.map (fun f => keySum (processFile parse fs f).counts k)).sum := by
  have hperm := initialDispatch_remaining_perm n files
  have hlen : (remaining (initialDispatch n files)).length ≤ files.length := by
    rw [hperm.length_eq]
  obtain ⟨h1, h2, h3, h4, h5, h6⟩ := ctrlRun_spec parse fs files.length sched
    (initialDispatch n files) (initialDispatch_good n files hn) hlen
  unfold run_aggregation controllerFinal
  refine ⟨?_, ?_, h1, h2, ?_, ?_⟩
  · refine h3.trans ?_
    have hm : (initialDispatch n files).merged ++ remaining (initialDispatch n files)
        = remaining (initialDispatch n files) := rfl
    rw [hm]
    exact hperm
  · rw [h4]
    have hd : (initialDispatch n files).dispatched ++ (initialDispatch n files).pending
        = files.take n ++ files.drop n := rfl
    rw [hd, List.take_append_drop]
  · rw [h5]
    have hz : (initialDispatch n files).global.num_raw_records = 0 := rfl
    rw [hz, Nat.zero_add]
    exact (hperm.map (fun f => (processFile parse fs f).numRecords)).sum_eq
  · intro k
    rw [h6 k]
    have hz : lookupCount (initialDispatch n files).global.aggregation k = 0 := rfl
    rw [hz, Nat.zero_add]
    exact (hperm.map (fun f => keySum (processFile parse fs f).counts k)).sum_eq

/-- Modelled from the spec (section 4.1): the Worker's receive loop.  It
consumes the messages arriving on its private inbound channel in order and
returns the Controller-bound messages it sends: on `processFile p` it sends
exactly one {worker identifier, per-file aggregate} message and loops; on
`done` it returns, terminating its execution context; an empty inbound
stream means the Worker is still blocked waiting (nothing sent yet). -/
def workerRun (parse : Parser) (fs : FileSystem) (wid : Nat) :
    List FileHandlingMessages → List (Nat × PerFileAggregate)
  | [] => []
  | FileHandlingMessages.done :: _ => []
  | FileHandlingMessages.processFile p :: rest =>
      (wid, processFile parse fs p) :: workerRun parse fs wid rest

/-- The `Runner`'s stored state (`main.rs` lines 82-94): the scoped thread
pool (modelled by its worker count) and the pushed send halves of every
spawned Worker's private channel (modelled by channel identifiers). -/
structure RunnerModel where
  poolWorkers : Nat
  fileHandlingMsgSenders : List Nat

/-- `Runner::new` (`main.rs`): an empty pool and no stored senders. -/
def Runner.new : RunnerModel :=
  { poolWorkers := 0, fileHandlingMsgSenders := [] }

/-- The observable effects of one call to `Runner::run` (`main.rs` lines
96-111).  The loop `for sender_id in 0..num_file_aggregators` creates one
fresh private channel per Worker (identified here by `sender_id`), pushes
its send half, clones the single shared aggregation sender once per Worker,
expands the pool and spawns the Worker; `controllerShutdownSends` is the
Shutdown broadcast the Controller performs at termination (modelled from
the spec, section 4.2 step 3: "send Shutdown to every Worker channel"). -/
structure RunTrace where
  spawnedWorkers : List Nat
  workerChannels : List Nat
  aggSenderClones : Nat
  controllerShutdownSends : List Nat
  result : FileAggregation

/-- `Runner::run` (`main.rs` lines 96-111): spawn `num_file_aggregators`
Workers, each with its own private inbound channel and a clone of the one
shared Controller-bound sender, then construct the `AggregationController`
and synchronously return `run_aggregation(filenames)` — the caller blocks
until the Controller finishes. -/
def Runner.run (parse : Parser) (fs : FileSystem) (sched : List Nat)
    (r : RunnerModel) (num_file_aggregators : Nat)
    (filenames : List String) : RunnerModel × RunTrace :=
  let senders := List.range num_file_aggregators
  ({ poolWorkers := r.poolWorkers + num_file_aggregators,
     fileHandlingMsgSenders := r.fileHandlingMsgSenders ++ senders },
   { spawnedWorkers := senders,
     workerChannels := senders,
     aggSenderClones := num_file_aggregators,
     controllerShutdownSends := List.range num_file_aggregators,
     result := run_aggregation parse fs num_file_aggregators sched filenames })

/-- Sending on an mpsc channel: an error when the receiving Worker has
already exited and dropped its receive half (`closed`). -/
def channelSend (closed : Bool) (msg : FileHandlingMessages) :
    Except Unit Unit :=
  if closed then Except.error () else Except.ok ()

/-- `Runner::shutdown` (`main.rs` lines 123-129): send `Done` to every
stored sender, discarding each send's result (`let _ = msg_sender.send(..)`),
then shut the pool down.  Returns the attempted sends. -/
def Runner.shutdown (closed : Nat → Bool) (r : RunnerModel) :
    List (Nat × FileHandlingMessages) :=
  r.fileHandlingMsgSenders.map (fun s =>
    let _ := channelSend (closed s) FileHandlingMessages.done
    (s, FileHandlingMessages.done))

/-- `EXIT_SUCCESS` (`main.rs` line 21). -/
def EXIT_SUCCESS : Int := 0

/-- `EXIT_FAILURE` (`main.rs` line 22). -/
def EXIT_FAILURE : Int := 1

/-- Zero-padded two-digit decimal, as chrono's `%m` / `%d`. -/
def pad2 (n : Nat) : String :=
  if n < 10 then "0" ++ toString n else toString n

/-- Zero-padded four-digit decimal, as chrono's `%Y`. -/
def pad4 (n : Nat) : String :=
  if n < 10 then "000" ++ toString n
  else if n < 100 then "00" ++ toString n
  else if n < 1000 then "0" ++ toString n
  else toString n

/-- `day.format("%Y-%m-%d")` (`main.rs` line 52). -/
def formatDay (d : Day) : String :=
  pad4 d.year ++ "-" ++ pad2 d.month ++ "-" ++ pad2 d.dayOfMonth

/-- One per-key output line (`main.rs` lines 49-55):
`system_name,YYYY-MM-DD,client_address,total`. -/
def formatKeyLine (k : AggregateKey) (total : Nat) : String :=
  k.system_name ++ "," ++ formatDay k.day ++ "," ++ k.client_address
    ++ "," ++ toString total

/-- The benchmark summary line (`main.rs` lines 60-65). -/
def benchmarkLine (numFiles numRecords : Nat) (ms : Int) (numAggs : Nat) :
    String :=
  "Processed " ++ toString numFiles ++ " files having "
    ++ toString numRecords ++ " records in " ++ toString ms
    ++ " milliseconds and produced " ++ toString numAggs ++ " aggregates."

/-- The observable outcome of one `main` invocation. -/
structure MainOutcome where
  exitCode : Int
  stdoutLines : List String
  stderrMessages : List String
  ranAggregation : Bool
  finalAgg : Option FileAggregation

/-- `main` (`main.rs` lines 24-80).  Collaborator results enter as
parameters: `listing` is what `file_handling::file_list(log_location)`
returned, `ncpus` is `num_cpus::get()`, `elapsedMs` the measured wall-clock
duration, `sched` the arrival schedule inside the run.  On `Ok`, the runner
is created and run, the per-key lines are printed, the benchmark summary is
printed only under the flag, the runner is shut down and the process exits
with `EXIT_SUCCESS`; on `Err`, one error line goes to stderr, no run is
started, and the process exits with `EXIT_FAILURE`. -/
def mainModel (parse : Parser) (fs : FileSystem) (sched : List Nat)
    (ncpus : Nat) (benchmark : Bool) (elapsedMs : Int)
    (listing : Except String (List String)) : MainOutcome :=
  match listing with
  | Except.ok filenames =>
      let num_files := filenames.length
      let rt := Runner.run parse fs sched Runner.new ncpus filenames
      let final_agg := rt.2.result
      let keyLines :=
        final_agg.aggregation.map (fun kt => formatKeyLine kt.1 kt.2)
      let benchLines :=
        if benchmark then
          [benchmarkLine num_files final_agg.num_raw_records elapsedMs
            final_agg.aggregation.length]
        else []
      let _ := Runner.shutdown (fun _ => false) rt.1
      { exitCode := EXIT_SUCCESS,
        stdoutLines := keyLines ++ benchLines,
        stderrMessages := [],
        ranAggregation := true,
        finalAgg := some final_agg }
  | Except.error e =>
      { exitCode := EXIT_FAILURE,
        stdoutLines := [],
        stderrMessages :=
          ["The following error occurred while trying to get the list of files. "
            ++ e],
        ranAggregation := false,
        finalAgg := none }

/-- A concrete parser for witnesses: the line "bad" fails to parse; any
other line parses to a record for system "web1" on 2024-01-01 with the
line's text as client address. -/
def sampleParse : Parser := fun line =>
  if line = "bad" then none
  else some { system_name := "web1",
              timestamp := { day := { year := 2024, month := 1, dayOfMonth := 1 },
                             secondsOfDay := 3 },
              client_address := line }

/-- A concrete file system for witnesses: file "a" reads fully with three
lines (one unparsable); file "b" yields one line and then a read error;
any other path fails to open immediately. -/
def sampleFS : FileSystem := fun p =>
  if p = "a" then { lines := ["10.0.0.1", "10.0.0.1", "bad"], ioError := false }
  else if p = "b" then { lines := ["10.0.0.2"], ioError := true }
  else { lines := [], ioError := true }

/-- A concrete per-file aggregate for witnesses. -/
def samplePA1 : PerFileAggregate :=
  { numRecords := 2,
    counts := [({ system_name := "web1", day := { year := 2024, month := 1, dayOfMonth := 1 },
                  client_address := "10.0.0.1" }, 2)] }

/-- Another concrete per-file aggregate for witnesses. -/
def samplePA2 : PerFileAggregate :=
  { numRecords := 1,
    counts := [({ system_name := "web1", day := { year := 2024, month := 1, dayOfMonth := 1 },
                  client_address := "10.0.0.2" }, 1)] }

/-- C1: for every input file list, `run_aggregation` dispatches every file
in the list exactly once (`dispatched` is exactly the file list), merges
exactly one partial result per dispatched file (`merged` is a permutation
of the file list), and the returned global aggregate reflects the union of
all files — its record total and every key's count equal the sums over the
per-file aggregates, independent of the arrival schedule `sched`. -/
theorem run_aggregation_exactly_once (parse : Parser) (fs : FileSystem)
    (n : Nat) (sched : List Nat) (files : List String) (hn : 1 ≤ n) :
    (controllerFinal parse fs n sched files).dispatched = files ∧
    List.Perm (controllerFinal parse fs n sched files).merged files ∧
    (run_aggregation parse fs n sched files).num_raw_records
      = (files.map (fun f => (processFile parse fs f).numRecords)).sum ∧
    ∀ k, lookupCount (run_aggregation parse fs n sched files).aggregation k
      = (files.map (fun f => keySum (processFile parse fs f).counts k)).sum := by
  obtain ⟨h1, h2, h3, h4, h5, h6⟩ := controller_core parse fs n sched files hn
  exact ⟨h2, h1, h5, h6⟩

/-- Witness for C1 at a concrete input. -/
theorem run_aggregation_exactly_once_witness :
    1 ≤ 2 ∧
    ((controllerFinal sampleParse sampleFS 2 [0] ["a", "b"]).dispatched = ["a", "b"] ∧
     List.Perm (controllerFinal sampleParse sampleFS 2 [0] ["a", "b"]).merged ["a", "b"] ∧
     (run_aggregation sampleParse sampleFS 2 [0] ["a", "b"]).num_raw_records
       = ((["a", "b"] : List String).map
           (fun f => (processFile sampleParse sampleFS f).numRecords)).sum ∧
     ∀ k, lookupCount (run_aggregation sampleParse sampleFS 2 [0] ["a", "b"]).aggregation k
       = ((["a", "b"] : List String).map
           (fun f => keySum (processFile sampleParse sampleFS f).counts k)).sum) :=
  ⟨by decide,
   run_aggregation_exactly_once sampleParse sampleFS 2 [0] ["a", "b"] (by decide)⟩

/-- C2: the Controller's merge is commutative and associative — merging any
permutation of a list of per-file aggregates yields the same global
aggregate: equal total record count and key-wise equal counts, each key's
count being the sum of its per-file counts (entries created on first
occurrence). -/
theorem mergeAll_perm_invariant (ps qs : List PerFileAggregate)
    (h : List.Perm ps qs) :
    (mergeAll ps).num_raw_records = (mergeAll qs).num_raw_records ∧
    (∀ k, lookupCount (mergeAll ps).aggregation k
        = lookupCount (mergeAll qs).aggregation k) ∧
    (mergeAll ps).num_raw_records
      = (ps.map PerFileAggregate.numRecords).sum ∧
    ∀ k, lookupCount (mergeAll ps).aggregation k
      = (ps.map (fun p => keySum p.counts k)).sum := by
  have hnum : ∀ rs : List PerFileAggregate,
      (mergeAll rs).num_raw_records
        = (rs.map PerFileAggregate.numRecords).sum := by
    intro rs
    rw [mergeAll, foldl_mergeInto_num]
    simp [emptyAggregation]
  have hlook : ∀ (rs : List PerFileAggregate) (k : AggregateKey),
      lookupCount (mergeAll rs).aggregation k
        = (rs.map (fun p => keySum p.counts k)).sum := by
    intro rs k
    rw [mergeAll, foldl_mergeInto_lookup]
    simp [emptyAggregation, lookupCount]
  refine ⟨?_, ?_, hnum ps, hlook ps⟩
  · rw [hnum ps, hnum qs]
    exact (h.map PerFileAggregate.numRecords).sum_eq
  · intro k
    rw [hlook ps k, hlook qs k]
    exact (h.map (fun p => keySum p.counts k)).sum_eq

/-- Witness for C2 at a concrete transposition. -/
theorem mergeAll_perm_invariant_witness :
    List.Perm [samplePA1, samplePA2] [samplePA2, samplePA1] ∧
    ((mergeAll [samplePA1, samplePA2]).num_raw_records
        = (mergeAll [samplePA2, samplePA1]).num_raw_records ∧
     (∀ k, lookupCount (mergeAll [samplePA1, samplePA2]).aggregation k
        = lookupCount (mergeAll [samplePA2, samplePA1]).aggregation k) ∧
     (mergeAll [samplePA1, samplePA2]).num_raw_records
        = (([samplePA1, samplePA2]).map PerFileAggregate.numRecords).sum ∧
     ∀ k, lookupCount (mergeAll [samplePA1, samplePA2]).aggregation k
        = (([samplePA1, samplePA2]).map (fun p => keySum p.counts k)).sum) :=
  ⟨List.Perm.swap samplePA2 samplePA1 [],
   mergeAll_perm_invariant [samplePA1, samplePA2] [samplePA2, samplePA1]
     (List.Perm.swap samplePA2 samplePA1 [])⟩

/-- C3: for every file list and all worker counts of at least one, running
the pipeline yields an identical global aggregate — equal record total and
key-wise equal counts — independent of both the worker count and the
arrival schedule of the workers' partial results. -/
theorem result_independent_of_worker_count (parse : Parser)
    (fs : FileSystem) (files : List String) (n₁ n₂ : Nat)
    (sched₁ sched₂ : List Nat) (h₁ : 1 ≤ n₁) (h₂ : 1 ≤ n₂) :
    (run_aggregation parse fs n₁ sched₁ files).num_raw_records
      = (run_aggregation parse fs n₂ sched₂ files).num_raw_records ∧
    ∀ k, lookupCount (run_aggregation parse fs n₁ sched₁ files).aggregation k
      = lookupCount (run_aggregation parse fs n₂ sched₂ files).aggregation k := by
  obtain ⟨-, -, -, -, a5, a6⟩ := controller_core parse fs n₁ sched₁ files h₁
  obtain ⟨-, -, -, -, b5, b6⟩ := controller_core parse fs n₂ sched₂ files h₂
  constructor
  · rw [a5, b5]
  · intro k
    rw [a6 k, b6 k]

/-- Witness for C3 at concrete worker counts 1 and 3 and different
schedules. -/
theorem result_independent_of_worker_count_witness :
    1 ≤ 1 ∧ 1 ≤ 3 ∧
    ((run_aggregation sampleParse sampleFS 1 [] ["a", "b"]).num_raw_records
       = (run_aggregation sampleParse sampleFS 3 [2, 0, 1] ["a", "b"]).num_raw_records ∧
     ∀ k, lookupCount
         (run_aggregation sampleParse sampleFS 1 [] ["a", "b"]).aggregation k
       = lookupCount
         (run_aggregation sampleParse sampleFS 3 [2, 0, 1] ["a", "b"]).aggregation k) :=
  ⟨by decide, by decide,
   result_independent_of_worker_count sampleParse sampleFS ["a", "b"] 1 3 []
     [2, 0, 1] (by decide) (by decide)⟩

/-- C4: the total record count of the returned global aggregate equals the
number of successfully parsed lines across all files — unparsable lines
are skipped, increment no record count and contribute to no key's count —
for every worker count of at least one and every arrival schedule. -/
theorem records_eq_parsed_lines (parse : Parser) (fs : FileSystem)
    (n : Nat) (sched : List Nat) (files : List String) (hn : 1 ≤ n) :
    (run_aggregation parse fs n sched files).num_raw_records
      = (files.map (fun f => parsedCount parse (fs f).lines)).sum ∧
    ∀ k, lookupCount (run_aggregation parse fs n sched files).aggregation k
      = (files.map (fun f => countKeyLines parse (fs f).lines k)).sum := by
  obtain ⟨-, -, -, -, h5, h6⟩ := controller_core parse fs n sched files hn
  constructor
  · rw [h5]
    simp only [processFile_numRecords]
  · intro k
    rw [h6 k]
    simp only [processFile_keySum]

/-- Witness for C4 at a concrete input including an unreadable file. -/
theorem records_eq_parsed_lines_witness :
    1 ≤ 2 ∧
    ((run_aggregation sampleParse sampleFS 2 [1, 0] ["a", "b", "c"]).num_raw_records
       = ((["a", "b", "c"] : List String).map
           (fun f => parsedCount sampleParse (sampleFS f).lines)).sum ∧
     ∀ k, lookupCount
         (run_aggregation sampleParse sampleFS 2 [1, 0] ["a", "b", "c"]).aggregation k
       = ((["a", "b", "c"] : List String).map
           (fun f => countKeyLines sampleParse (sampleFS f).lines k)).sum) :=
  ⟨by decide,
   records_eq_parsed_lines sampleParse sampleFS 2 [1, 0] ["a", "b", "c"] (by decide)⟩

/-- `Runner.shutdown` modulo the discarded send results. -/
theorem shutdown_eq (closed : Nat → Bool) (r : RunnerModel) :
    Runner.shutdown closed r
      = r.fileHandlingMsgSenders.map
          (fun s => (s, FileHandlingMessages.done)) := rfl

theorem map_pair_fst (msg : FileHandlingMessages) (l : List Nat) :
    (l.map (fun s => (s, msg))).map Prod.fst = l := by
  induction l with
  | nil => rfl
  | cons a t ih => simp only [List.map_cons, ih]

/-- C5: `Runner::run(worker_count, file_list)` spawns exactly
`worker_count` Workers, each with its own private inbound channel (the
channels are pairwise distinct), clones the send half of the one shared
Controller-bound channel to every Worker, returns exactly
`run_aggregation`'s result (the caller blocks until the Controller
finishes), the Controller's termination broadcast signals every Worker
channel — still-idle Workers included, covering a file list shorter than
the worker count — and `Runner::shutdown` on the stored senders afterwards
sends `Done` to all `worker_count` channels. -/
theorem runner_run_wiring (parse : Parser) (fs : FileSystem)
    (sched : List Nat) (n : Nat) (files : List String)
    (closed : Nat → Bool) :
    (Runner.run parse fs sched Runner.new n files).2.spawnedWorkers.length = n ∧
    (Runner.run parse fs sched Runner.new n files).2.workerChannels.length = n ∧
    (Runner.run parse fs sched Runner.new n files).2.workerChannels.Nodup ∧
    (Runner.run parse fs sched Runner.new n files).2.aggSenderClones = n ∧
    (Runner.run parse fs sched Runner.new n files).2.result
      = run_aggregation parse fs n sched files ∧
    (Runner.run parse fs sched Runner.new n files).2.controllerShutdownSends
      = List.range n ∧
    (Runner.shutdown closed
        (Runner.run parse fs sched Runner.new n files).1).map Prod.fst
      = List.range n := by
  refine ⟨by simp [Runner.run], by simp [Runner.run], ?_, rfl, rfl, rfl, ?_⟩
  · simpa [Runner.run] using List.nodup_range n
  · rw [shutdown_eq]
    have hs : (Runner.run parse fs sched Runner.new n files).1.fileHandlingMsgSenders
        = List.range n := by
      simp [Runner.run, Runner.new]
    rw [hs, map_pair_fst]

/-- C6: the modelled process exits with `EXIT_SUCCESS` (0) when the file
listing succeeds, and with `EXIT_FAILURE` (1) exactly when the file-listing
collaborator fails; in the failure case no aggregation run is started and
exactly one error message is printed to stderr. -/
theorem main_exit_codes (parse : Parser) (fs : FileSystem)
    (sched : List Nat) (ncpus : Nat) (benchmark : Bool) (elapsedMs : Int) :
    (∀ files, (mainModel parse fs sched ncpus benchmark elapsedMs
        (Except.ok files)).exitCode = EXIT_SUCCESS) ∧
    (∀ e, (mainModel parse fs sched ncpus benchmark elapsedMs
        (Except.error e)).exitCode = EXIT_FAILURE ∧
      (mainModel parse fs sched ncpus benchmark elapsedMs
        (Except.error e)).ranAggregation = false ∧
      (mainModel parse fs sched ncpus benchmark elapsedMs
        (Except.error e)).stderrMessages.length = 1) ∧
    ∀ listing, ((mainModel parse fs sched ncpus benchmark elapsedMs
        listing).exitCode = EXIT_FAILURE
      ↔ ∃ e, listing = Except.error e) := by
  refine ⟨fun files => rfl, fun e => ⟨rfl, rfl, rfl⟩, ?_⟩
  intro listing
  cases listing with
  | ok files =>
      constructor
      · intro hcode
        have hok : (mainModel parse fs sched ncpus benchmark elapsedMs
            (Except.ok files)).exitCode = EXIT_SUCCESS := rfl
        rw [hok] at hcode
        exact absurd hcode (by decide)
      · rintro ⟨e, he⟩
        exact Except.noConfusion he
  | error e =>
      exact ⟨fun _ => ⟨e, rfl⟩, fun _ => rfl⟩

/-- C7: when a Worker cannot fully read a dispatched file (`ioError`), the
error is absorbed: the Worker still sends exactly one partial result for
that file and continues its loop, the file's contribution is exactly the
lines parsed before the failure, and an immediately failing file yields the
empty per-file aggregate. -/
theorem worker_ioerror_one_message (parse : Parser) (fs : FileSystem)
    (wid : Nat) (path : String) (rest : List FileHandlingMessages)
    (h : (fs path).ioError = true) :
    workerRun parse fs wid (FileHandlingMessages.processFile path :: rest)
      = (wid, processFile parse fs path) :: workerRun parse fs wid rest ∧
    (processFile parse fs path).numRecords
      = parsedCount parse (fs path).lines ∧
    ((fs path).lines = [] →
      processFile parse fs path = { numRecords := 0, counts := [] }) := by
  refine ⟨rfl, processFile_numRecords parse fs path, ?_⟩
  intro hl
  unfold processFile processLines
  rw [hl]
  rfl

/-- Witness for C7: file "b" fails mid-read, file "z" fails immediately. -/
theorem worker_ioerror_one_message_witness :
    (sampleFS "b").ioError = true ∧
    (workerRun sampleParse sampleFS 7
        [FileHandlingMessages.processFile "b"]
      = (7, processFile sampleParse sampleFS "b")
          :: workerRun sampleParse sampleFS 7 [] ∧
     (processFile sampleParse sampleFS "b").numRecords
      = parsedCount sampleParse (sampleFS "b").lines ∧
     ((sampleFS "b").lines = [] →
      processFile sampleParse sampleFS "b"
        = { numRecords := 0, counts := [] })) :=
  ⟨by decide,
   worker_ioerror_one_message sampleParse sampleFS 7 "b" [] (by decide)⟩

/-- C8: a Worker that receives `Done` terminates its loop: whatever arrives
on its inbound channel afterwards, it processes no further `processFile`
message and sends no further Controller-bound message — its output is
exactly the output of the stream truncated at the `Done`. -/
theorem worker_stops_after_done (parse : Parser) (fs : FileSystem)
    (wid : Nat) (pre post : List FileHandlingMessages) :
    workerRun parse fs wid (pre ++ FileHandlingMessages.done :: post)
      = workerRun parse fs wid (pre ++ [FileHandlingMessages.done]) ∧
    workerRun parse fs wid (FileHandlingMessages.done :: post) = [] := by
  constructor
  · induction pre with
    | nil => rfl
    | cons msg rest ih =>
        cases msg with
        | done => rfl
        | processFile p => simp [workerRun, ih]
  · rfl

/-- C9: the benchmark instrumentation does not affect the computed result:
the final aggregate is identical with and without the flag (even for
different measured durations), and with the flag exactly one summary line
reporting file count, record total, elapsed milliseconds and aggregate
count is appended after the per-key output. -/
theorem benchmark_noninterference (parse : Parser) (fs : FileSystem)
    (sched : List Nat) (ncpus : Nat) (ms ms' : Int) :
    (∀ listing, (mainModel parse fs sched ncpus true ms listing).finalAgg
        = (mainModel parse fs sched ncpus false ms' listing).finalAgg) ∧
    (∀ files, (mainModel parse fs sched ncpus true ms
          (Except.ok files)).stdoutLines
        = (mainModel parse fs sched ncpus false ms'
            (Except.ok files)).stdoutLines
          ++ [benchmarkLine files.length
                (run_aggregation parse fs ncpus sched files).num_raw_records
                ms
                (run_aggregation parse fs ncpus sched files).aggregation.length]) := by
  constructor
  · intro listing
    cases listing <;> rfl
  · intro files
    simp [mainModel, Runner.run]

/-- C10: `Runner::shutdown` never fails: it attempts a `Done` send to every
stored worker channel, discards each send's result, and its behaviour is
identical whatever subset of the worker channels is already closed — so it
completes normally even after all worker threads have exited. -/
theorem shutdown_never_fails (r : RunnerModel) (closed closed' : Nat → Bool) :
    Runner.shutdown closed r = Runner.shutdown closed' r ∧
    (Runner.shutdown closed r).map Prod.fst = r.fileHandlingMsgSenders ∧
    ∀ x ∈ Runner.shutdown closed r, x.2 = FileHandlingMessages.done := by
  refine ⟨rfl, ?_, ?_⟩
  · rw [shutdown_eq, map_pair_fst]
  · intro x hx
    obtain ⟨s, hs, hxx⟩ := List.mem_map.mp hx
    subst hxx
    rfl
